import Mathlib

/-!
Verification of the rust-rocksdb binding layer (src/rocksdb.rs).

Shallow embedding conventions:
- byte strings (`&[u8]`, `String` keys) are `List Nat`;
- native pointers are `Nat`, with `0` playing the role of the null pointer;
- each FFI call into the engine is modelled by an oracle argument carrying
  the values the engine would write (returned pointer, error out-pointer);
- Rust `Result<T, String>` is `Except String T`;
- a Rust panic (`unwrap` failure, `assert!` failure) is modelled by `none`
  in an `Option` result;
- the `BTreeMap<String, DBCFHandle>` is a sorted association list
  `List (Bytes × Nat)`, with insertion keeping the byte-lexicographic order
  that `Ord` on Rust strings and slices provides.
-/

namespace RocksDB

/-- Byte strings: Rust `&[u8]` / the UTF-8 bytes of a `String`. -/
abbrev Bytes := List Nat

/-- Strict byte-lexicographic order, as Rust `Ord` on slices: elementwise
comparison, a strict prefix is smaller. -/
def bytesLt : Bytes → Bytes → Bool
  | _, [] => false
  | [], _ :: _ => true
  | a :: as, b :: bs => a < b || (a == b && bytesLt as bs)

/-- Byte-lexicographic `<=`, as Rust `PartialOrd::le` on slices. -/
def bytesLe : Bytes → Bytes → Bool
  | [], _ => true
  | _ :: _, [] => false
  | a :: as, b :: bs => a < b || (a == b && bytesLe as bs)

theorem bytesLt_eq_not_le : ∀ a b : Bytes, bytesLt b a = !bytesLe a b := by
  intro a
  induction a with
  | nil => intro b; cases b <;> simp [bytesLt, bytesLe]
  | cons x xs ih =>
    intro b
    cases b with
    | nil => simp [bytesLt, bytesLe]
    | cons y ys =>
      simp only [bytesLt, bytesLe, ih ys, Bool.not_or, Bool.not_and]
      rcases Nat.lt_trichotomy x y with h | h | h
      · have h1 : decide (y < x) = false := by simpa using Nat.lt_asymm h
        have h2 : (y == x) = false := by rw [beq_eq_false_iff_ne]; exact Nat.ne_of_gt h
        have h3 : decide (x < y) = true := by simpa using h
        simp [h1, h2, h3]
      · have h1 : decide (y < x) = false := by simp [h, Nat.lt_irrefl]
        have h2 : (y == x) = true := by simp [h]
        have h3 : decide (x < y) = false := by simp [h, Nat.lt_irrefl]
        have h4 : (x == y) = true := by simp [h]
        simp [h1, h2, h3, h4]
      · have h1 : decide (y < x) = true := by simpa using h
        have h2 : decide (x < y) = false := by simpa using Nat.lt_asymm h
        have h3 : (x == y) = false := by rw [beq_eq_false_iff_ne]; exact Nat.ne_of_gt h
        simp [h1, h2, h3]

theorem bytesLt_trans :
    ∀ a b c : Bytes, bytesLt a b = true → bytesLt b c = true → bytesLt a c = true := by
  intro a
  induction a with
  | nil =>
    intro b c hab hbc
    cases b with
    | nil => simp [bytesLt] at hab
    | cons y ys =>
      cases c with
      | nil => simp [bytesLt] at hbc
      | cons z zs => simp [bytesLt]
  | cons x xs ih =>
    intro b c hab hbc
    cases b with
    | nil => simp [bytesLt] at hab
    | cons y ys =>
      cases c with
      | nil => simp [bytesLt] at hbc
      | cons z zs =>
        simp only [bytesLt, Bool.or_eq_true, Bool.and_eq_true, decide_eq_true_eq,
          beq_iff_eq] at hab hbc ⊢
        rcases hab with h1 | ⟨h1, h1'⟩ <;> rcases hbc with h2 | ⟨h2, h2'⟩
        · exact Or.inl (Nat.lt_trans h1 h2)
        · exact Or.inl (h2 ▸ h1)
        · exact Or.inl (h1 ▸ h2)
        · exact Or.inr ⟨h1.trans h2, ih ys zs h1' h2'⟩

theorem bytesLt_of_not_lt_of_ne :
    ∀ a b : Bytes, bytesLt a b = false → a ≠ b → bytesLt b a = true := by
  intro a
  induction a with
  | nil =>
    intro b hab hne
    cases b with
    | nil => exact absurd rfl hne
    | cons y ys => simp [bytesLt] at hab
  | cons x xs ih =>
    intro b hab hne
    cases b with
    | nil => simp [bytesLt]
    | cons y ys =>
      simp only [bytesLt, Bool.or_eq_false_iff, Bool.and_eq_false_imp,
        decide_eq_false_iff_not, beq_iff_eq] at hab
      simp only [bytesLt, Bool.or_eq_true, Bool.and_eq_true, decide_eq_true_eq, beq_iff_eq]
      rcases hab with ⟨h1, h2⟩
      rcases Nat.lt_trichotomy x y with h | h | h
      · exact absurd h h1
      · refine Or.inr ⟨h.symm, ih ys (h2 h) ?_⟩
        intro hxy
        exact hne (by rw [h, hxy])
      · exact Or.inl h

/-- `CString::new(bytes)`: fails exactly when the bytes contain a NUL. -/
def cstring_new (s : Bytes) : Option Bytes :=
  if 0 ∈ s then none else some s

/-- The `BTreeMap<String, DBCFHandle>` as a sorted association list;
insertion keeps the keys in strictly ascending byte order and replaces the
value of an existing key, as `BTreeMap::insert` does. -/
def btreeInsert (k : Bytes) (v : Nat) : List (Bytes × Nat) → List (Bytes × Nat)
  | [] => [(k, v)]
  | (k', v') :: rest =>
    if bytesLt k k' then (k, v) :: (k', v') :: rest
    else if k = k' then (k, v) :: rest
    else (k', v') :: btreeInsert k v rest

/-- `BTreeMap::get`. -/
def btreeGet (k : Bytes) : List (Bytes × Nat) → Option Nat
  | [] => none
  | (k', v') :: rest => if k = k' then some v' else btreeGet k rest

/-- Keys of the association list are in strictly ascending byte order:
the representation invariant of `BTreeMap<String, _>`. -/
def SortedKeys (m : List (Bytes × Nat)) : Prop :=
  List.Pairwise (fun p q : Bytes × Nat => bytesLt p.1 q.1 = true) m

theorem mem_btreeInsert :
    ∀ (m : List (Bytes × Nat)) (p : Bytes × Nat) (k : Bytes) (v : Nat),
      p ∈ btreeInsert k v m → p = (k, v) ∨ p ∈ m := by
  intro m
  induction m with
  | nil => intro p k v hp; simpa [btreeInsert] using hp
  | cons q rest ih =>
    intro p k v hp
    unfold btreeInsert at hp
    by_cases h1 : bytesLt k q.1 = true
    · rw [if_pos h1] at hp
      rcases List.mem_cons.mp hp with h | h
      · exact Or.inl h
      · exact Or.inr h
    · rw [if_neg h1] at hp
      by_cases h2 : k = q.1
      · rw [if_pos h2] at hp
        rcases List.mem_cons.mp hp with h | h
        · exact Or.inl h
        · exact Or.inr (List.mem_cons_of_mem _ h)
      · rw [if_neg h2] at hp
        rcases List.mem_cons.mp hp with h | h
        · exact Or.inr (by simp [h])
        · rcases ih p k v h with h' | h'
          · exact Or.inl h'
          · exact Or.inr (List.mem_cons_of_mem _ h')

theorem sortedKeys_btreeInsert :
    ∀ (m : List (Bytes × Nat)) (k : Bytes) (v : Nat),
      SortedKeys m → SortedKeys (btreeInsert k v m) := by
  intro m
  induction m with
  | nil => intro k v _; simp [btreeInsert, SortedKeys]
  | cons q rest ih =>
    intro k v hm
    rcases List.pairwise_cons.mp hm with ⟨hq, hrest⟩
    unfold btreeInsert
    by_cases h1 : bytesLt k q.1 = true
    · rw [if_pos h1]
      refine List.pairwise_cons.mpr ⟨?_, hm⟩
      intro p hp
      rcases List.mem_cons.mp hp with h | h
      · simpa [h] using h1
      · exact bytesLt_trans _ _ _ h1 (hq p h)
    · rw [if_neg h1]
      by_cases h2 : k = q.1
      · rw [if_pos h2]
        refine List.pairwise_cons.mpr ⟨?_, hrest⟩
        intro p hp
        exact h2 ▸ hq p hp
      · rw [if_neg h2]
        refine List.pairwise_cons.mpr ⟨?_, ih k v hrest⟩
        intro p hp
        rcases mem_btreeInsert rest p k v hp with h | h
        · have := bytesLt_of_not_lt_of_ne k q.1 (by simpa using h1) h2
          simpa [h] using this
        · exact hq p h

theorem btreeGet_btreeInsert_self :
    ∀ (m : List (Bytes × Nat)) (k : Bytes) (v : Nat),
      btreeGet k (btreeInsert k v m) = some v := by
  intro m
  induction m with
  | nil => intro k v; simp [btreeInsert, btreeGet]
  | cons q rest ih =>
    intro k v
    unfold btreeInsert
    by_cases h1 : bytesLt k q.1 = true
    · rw [if_pos h1]
      simp [btreeGet]
    · rw [if_neg h1]
      by_cases h2 : k = q.1
      · rw [if_pos h2]
        simp [btreeGet]
      · rw [if_neg h2]
        simp [btreeGet, h2, ih]

theorem btreeGet_btreeInsert_ne :
    ∀ (m : List (Bytes × Nat)) (k k' : Bytes) (v : Nat), k ≠ k' →
      btreeGet k (btreeInsert k' v m) = btreeGet k m := by
  intro m
  induction m with
  | nil => intro k k' v hne; simp [btreeInsert, btreeGet, hne]
  | cons q rest ih =>
    intro k k' v hne
    unfold btreeInsert
    by_cases h1 : bytesLt k' q.1 = true
    · rw [if_pos h1]
      simp [btreeGet, hne]
    · rw [if_neg h1]
      by_cases h2 : k' = q.1
      · rw [if_pos h2]
        have hne' : k ≠ q.1 := h2 ▸ hne
        simp [btreeGet, hne, hne']
      · rw [if_neg h2]
        by_cases h3 : k = q.1
        · simp [btreeGet, h3]
        · simp [btreeGet, h3, ih k k' v hne]

theorem btreeGet_foldl_isSome :
    ∀ (pairs : List (Bytes × Nat)) (m0 : List (Bytes × Nat)) (k : Bytes),
      (k ∈ pairs.map Prod.fst ∨ (btreeGet k m0).isSome = true) →
      (btreeGet k (pairs.foldl (fun m p => btreeInsert p.1 p.2 m) m0)).isSome = true := by
  intro pairs
  induction pairs with
  | nil =>
    intro m0 k h
    rcases h with h | h
    · simp at h
    · simpa using h
  | cons q rest ih =>
    intro m0 k h
    simp only [List.foldl_cons]
    by_cases hk : k = q.1
    · refine ih _ k (Or.inr ?_)
      rw [hk, btreeGet_btreeInsert_self]
      rfl
    · rcases h with h | h
      · simp only [List.map_cons, List.mem_cons] at h
        rcases h with h | h
        · exact absurd h hk
        · exact ih _ k (Or.inl h)
      · refine ih _ k (Or.inr ?_)
        rwa [btreeGet_btreeInsert_ne _ _ _ _ hk]

theorem sortedKeys_foldl :
    ∀ (pairs : List (Bytes × Nat)) (m0 : List (Bytes × Nat)),
      SortedKeys m0 →
      SortedKeys (pairs.foldl (fun m p => btreeInsert p.1 p.2 m) m0) := by
  intro pairs
  induction pairs with
  | nil => intro m0 h; simpa using h
  | cons q rest ih =>
    intro m0 h
    simp only [List.foldl_cons]
    exact ih _ (sortedKeys_btreeInsert _ _ _ h)

/-- The `DB` struct: engine handle (`inner`), the CF map, and the path. -/
structure DB where
  inner : Nat
  cfs : List (Bytes × Nat)
  path : Bytes
deriving DecidableEq

/-- The bytes of `DEFAULT_COLUMN_FAMILY = "default"`. -/
def DEFAULT_COLUMN_FAMILY : Bytes := [100, 101, 102, 97, 117, 108, 116]

/-- Oracle for one call of `rocksdb_open_column_families`: the database
handle the engine returns, the CF handle it writes into slot `i` of the
caller-allocated `cfhandles` array, and the error out-pointer. -/
structure EngineOpenResult where
  db : Nat
  handleAt : Nat → Nat
  err : Option String

/-- The CF name list actually passed to the engine by `open_cf`:
the caller's list, with `"default"` appended when absent. -/
def open_cfs_v (cfs : List Bytes) : List Bytes :=
  if cfs.contains DEFAULT_COLUMN_FAMILY then cfs
  else cfs ++ [DEFAULT_COLUMN_FAMILY]

/-- The CF options list actually passed to the engine by `open_cf`:
the caller's list, with the database-level `opts` appended when
`"default"` is absent from the caller's CF name list. -/
def open_cf_opts_v (opts : Nat) (cfs : List Bytes) (cf_opts : List Nat) : List Nat :=
  if cfs.contains DEFAULT_COLUMN_FAMILY then cf_opts
  else cf_opts ++ [opts]

/-- `DB::open_cf`. The engine oracle is a function of the CF name and CF
option arrays the binding passes to `rocksdb_open_column_families`. -/
def open_cf (opts : Nat) (path : Bytes) (cfs : List Bytes) (cf_opts : List Nat)
    (fsErr : Option String) (eng : List Bytes → List Nat → EngineOpenResult) :
    Except String DB :=
  match cstring_new path with
  | none => .error "Failed to convert path to CString when opening rocksdb"
  | some _cpath =>
    match fsErr with
    | some e => .error ("Failed to create rocksdb directory: " ++ e)
    | none =>
      if cfs.length ≠ cf_opts.length then
        .error "cfs.len() and cf_opts.len() not match."
      else
        let cfs_v := open_cfs_v cfs
        let cf_opts_v := open_cf_opts_v opts cfs cf_opts
        let r := eng cfs_v cf_opts_v
        let cfhandles := (List.range cfs_v.length).map r.handleAt
        match r.err with
        | some e => .error e
        | none =>
          if cfhandles.any (fun h => h == 0) then
            .error "Received null column family handle from DB."
          else
            let cf_map := (cfs_v.zip cfhandles).foldl
              (fun m p => btreeInsert p.1 p.2 m) []
            if r.db == 0 then
              .error "Could not initialize database."
            else
              .ok { inner := r.db, cfs := cf_map, path := path }

/-- `DB::destroy`. `CString::new(path).unwrap()` panics (modelled by `none`)
when the path holds a NUL byte; `eng` is the error out-pointer of
`rocksdb_destroy_db`. -/
def destroy (opts : Nat) (path : Bytes) (eng : Option String) :
    Option (Except String Unit) :=
  match cstring_new path with
  | none => none
  | some _cpath =>
    match eng with
    | some e => some (.error e)
    | none => some (.ok ())

/-- `DB::repair`. Same shape as `destroy`: `unwrap` on the path conversion,
then the engine call `rocksdb_repair_db`. -/
def repair (opts : Nat) (path : Bytes) (eng : Option String) :
    Option (Except String Unit) :=
  match cstring_new path with
  | none => none
  | some _cpath =>
    match eng with
    | some e => some (.error e)
    | none => some (.ok ())

/-- `DB::create_cf`. The oracle is the pair the engine call
`rocksdb_create_column_family` produces: the returned CF handle and the
error out-pointer. The handle is inserted into the CF map before the error
pointer is checked, exactly as in the source. -/
def create_cf (db : DB) (name : Bytes) (opts : Nat) (eng : Nat × Option String) :
    DB × Except String Nat :=
  match cstring_new name with
  | none => (db, .error "Failed to convert path to CString when opening rocksdb")
  | some _cname =>
    let cf_handler := eng.1
    let db' : DB := { db with cfs := btreeInsert name cf_handler db.cfs }
    match eng.2 with
    | some e => (db', .error e)
    | none => (db', .ok cf_handler)

/-- `DB::drop_cf`. Looks the name up in the CF map, errors when absent,
then calls `rocksdb_drop_column_family` (oracle `eng` is its error
out-pointer). The CF map itself is never modified. -/
def drop_cf (db : DB) (name : Bytes) (eng : Option String) :
    DB × Except String Unit :=
  match btreeGet name db.cfs with
  | none => (db, .error ("Invalid column family: " ++ toString name))
  | some _cf =>
    match eng with
    | some e => (db, .error e)
    | none => (db, .ok ())

/-- `DB::cf_handle`. -/
def cf_handle (db : DB) (name : Bytes) : Option Nat :=
  btreeGet name db.cfs

/-- `DB::cf_names`: the keys of the CF map, in map iteration order. -/
def cf_names (db : DB) : List Bytes :=
  db.cfs.map Prod.fst

/-- The engine calls observable while dropping a `DB`. -/
inductive EngineEvent where
  | cf_destroy (handle : Nat)
  | close (handle : Nat)
deriving DecidableEq

/-- `impl Drop for DB`: the sequence of engine calls performed, in order:
`rocksdb_column_family_handle_destroy` for every value of the CF map,
then `rocksdb_close` on the engine handle. -/
def dropDB (db : DB) : List EngineEvent :=
  (db.cfs.map (fun kv => EngineEvent.cf_destroy kv.2)) ++ [EngineEvent.close db.inner]

/-- Discriminator for the close event. -/
def EngineEvent.isClose : EngineEvent → Bool
  | .close _ => true
  | _ => false

/-- Discriminator for the CF-handle-destroy event. -/
def EngineEvent.isCfDestroy : EngineEvent → Bool
  | .cf_destroy _ => true
  | _ => false

/-- `ReadOptions`: holds the native read-options pointer; `0` is null. -/
structure ReadOptions where
  inner : Nat
deriving DecidableEq

/-- Oracle for one `rocksdb_get` / `rocksdb_get_cf` call: the returned
value pointer (`none` models null) and the error out-pointer. -/
structure EngineGetResult where
  val : Option Bytes
  err : Option String
deriving DecidableEq

/-- `DB::get_opt`: null-readopts guard, engine call, then error pointer
checked before the value pointer is interpreted. -/
def get_opt (db : DB) (key : Bytes) (readopts : ReadOptions)
    (eng : EngineGetResult) : Except String (Option Bytes) :=
  if readopts.inner = 0 then
    .error "Unable to create rocksdb read options.  This is a fairly trivial call, and its failure may be indicative of a mis-compiled or mis-loaded rocksdb library."
  else
    match eng.err with
    | some e => .error e
    | none =>
      match eng.val with
      | none => .ok none
      | some v => .ok (some v)

/-- `DB::get_cf_opt`: identical shape to `get_opt`, with the CF handle
passed to `rocksdb_get_cf`. -/
def get_cf_opt (db : DB) (cf : Nat) (key : Bytes) (readopts : ReadOptions)
    (eng : EngineGetResult) : Except String (Option Bytes) :=
  if readopts.inner = 0 then
    .error "Unable to create rocksdb read options.  This is a fairly trivial call, and its failure may be indicative of a mis-compiled or mis-loaded rocksdb library."
  else
    match eng.err with
    | some e => .error e
    | none =>
      match eng.val with
      | none => .ok none
      | some v => .ok (some v)

/-- A generic `assert!`: `none` models the assertion failure (panic). -/
def assertGuard (cond : Bool) (x : α) : Option α :=
  if cond then some x else none

/-- `Range`: half-open key range, `start_key` included, `end_key` excluded. -/
structure Range where
  start_key : Bytes
  end_key : Bytes
deriving DecidableEq

/-- `Range::new`: `assert!(start_key <= end_key)` then construction. -/
def Range.new (start_key end_key : Bytes) : Option Range :=
  assertGuard (bytesLe start_key end_key)
    { start_key := start_key, end_key := end_key }

/-- `DBIterator`, abstracted over the engine iterator it wraps: `valid`
is what `rocksdb_iter_valid` reports, `cur_key` / `cur_value` are the
slices `rocksdb_iter_key` / `rocksdb_iter_value` would expose. -/
structure DBIterator where
  valid : Bool
  cur_key : Bytes
  cur_value : Bytes
deriving DecidableEq

/-- `DBIterator::key`: `assert!(self.valid())`, then the borrowed key slice. -/
def DBIterator.key (it : DBIterator) : Option Bytes :=
  assertGuard it.valid it.cur_key

/-- `DBIterator::value`: `assert!(self.valid())`, then the borrowed value
slice. -/
def DBIterator.value (it : DBIterator) : Option Bytes :=
  assertGuard it.valid it.cur_value

/-- `DBIterator::kv`: owned copies of key and value when valid, else `None`. -/
def DBIterator.kv (it : DBIterator) : Option (Bytes × Bytes) :=
  if it.valid then
    match it.key, it.value with
    | some k, some v => some (k, v)
    | _, _ => none
  else
    none

/-- `u64::MAX`. -/
def U64_MAX : Nat := 2 ^ 64 - 1

/-- Digit loop of Rust `str::parse::<u64>`: each character must be an
ASCII digit, and the accumulated value must stay within `u64`. -/
def parseU64Digits (acc : Nat) : List Char → Option Nat
  | [] => some acc
  | c :: cs =>
    if c.isDigit then
      let acc' := acc * 10 + (c.toNat - 48)
      if acc' > U64_MAX then none else parseU64Digits acc' cs
    else
      none

/-- Rust `str::parse::<u64>`: optional leading `+`, then one or more
decimal digits, no overflow. -/
def parse_u64 (s : String) : Option Nat :=
  match s.data with
  | [] => none
  | '+' :: rest => if rest.isEmpty then none else parseU64Digits 0 rest
  | l => parseU64Digits 0 l

/-- `CString::new` on a Rust `String`: fails exactly when the string holds
a NUL character (the NUL byte of its UTF-8 form). -/
def cstring_new_str (s : String) : Option String :=
  if Char.ofNat 0 ∈ s.data then none else some s

/-- `DB::get_property_value_cf_opt`. The outer `Option` is the panic of
`CString::new(name).unwrap()`; the oracle `eng` is the string returned by
`rocksdb_property_value[_cf]` (`none` models a null pointer; the engine
string is assumed valid UTF-8 as the source comment states). -/
def get_property_value_cf_opt (db : DB) (cf : Option Nat) (name : String)
    (eng : Option String) : Option (Option String) :=
  match cstring_new_str name with
  | none => none
  | some _prop_name => some eng

/-- `DB::get_property_int_cf_opt`: reads the property string and parses it
as `u64`; `None` when the property is absent or does not parse. -/
def get_property_int_cf_opt (db : DB) (cf : Option Nat) (name : String)
    (eng : Option String) : Option (Option Nat) :=
  match get_property_value_cf_opt db cf name eng with
  | none => none
  | some v =>
    some (match v with
      | some value =>
        match parse_u64 value with
        | some num => some num
        | none => none
      | none => none)

/-- `DB` states reachable through the public constructors and the CF
lifecycle operations. -/
inductive Reachable : DB → Prop where
  | open_ok (opts : Nat) (path : Bytes) (cfs : List Bytes) (cf_opts : List Nat)
      (fsErr : Option String) (eng : List Bytes → List Nat → EngineOpenResult)
      (db : DB) : open_cf opts path cfs cf_opts fsErr eng = .ok db → Reachable db
  | create (db : DB) (name : Bytes) (opts : Nat) (eng : Nat × Option String) :
      Reachable db → Reachable (create_cf db name opts eng).1
  | dropcf (db : DB) (name : Bytes) (eng : Option String) :
      Reachable db → Reachable (drop_cf db name eng).1

theorem open_cf_ok_inv (opts : Nat) (path : Bytes) (cfs : List Bytes)
    (cf_opts : List Nat) (fsErr : Option String)
    (eng : List Bytes → List Nat → EngineOpenResult) (db : DB)
    (hok : open_cf opts path cfs cf_opts fsErr eng = .ok db) :
    db.cfs = ((open_cfs_v cfs).zip ((List.range (open_cfs_v cfs).length).map
        (eng (open_cfs_v cfs) (open_cf_opts_v opts cfs cf_opts)).handleAt)).foldl
      (fun m p => btreeInsert p.1 p.2 m) [] := by
  unfold open_cf at hok
  split at hok
  · exact absurd hok (by simp)
  · split at hok
    · exact absurd hok (by simp)
    · split at hok
      · exact absurd hok (by simp)
      · simp only [] at hok
        split at hok
        · exact absurd hok (by simp)
        · split at hok
          · exact absurd hok (by simp)
          · split at hok
            · exact absurd hok (by simp)
            · cases hok
              rfl

theorem create_cf_fst_cfs (db : DB) (name : Bytes) (opts : Nat)
    (eng : Nat × Option String) :
    (create_cf db name opts eng).1.cfs = db.cfs ∨
    (create_cf db name opts eng).1.cfs = btreeInsert name eng.1 db.cfs := by
  unfold create_cf
  cases cstring_new name
  · exact Or.inl rfl
  · cases eng.2
    · exact Or.inr rfl
    · exact Or.inr rfl

theorem drop_cf_fst (db : DB) (name : Bytes) (eng : Option String) :
    (drop_cf db name eng).1 = db := by
  unfold drop_cf
  cases btreeGet name db.cfs
  · rfl
  · cases eng
    · rfl
    · rfl

theorem reachable_sortedKeys (db : DB) (h : Reachable db) : SortedKeys db.cfs := by
  induction h with
  | open_ok opts path cfs cf_opts fsErr eng db hok =>
    rw [open_cf_ok_inv opts path cfs cf_opts fsErr eng db hok]
    exact sortedKeys_foldl _ _ (by simp [SortedKeys])
  | create db name opts eng _ ih =>
    rcases create_cf_fst_cfs db name opts eng with h | h
    · rw [h]; exact ih
    · rw [h]; exact sortedKeys_btreeInsert _ _ _ ih
  | dropcf db name eng _ ih =>
    rw [drop_cf_fst]
    exact ih

/-- C1 (counterexample): at a concrete input where the engine call made by
`create_cf` reports an error, `create_cf` does return that error, yet the
CF map DOES contain an entry for the name — the handle was inserted before
the error pointer was checked, so the claim's
"the CF map does not contain an entry for that name" is false. -/
theorem create_cf_error_entry_counterexample :
    (create_cf ⟨7, [], [107]⟩ [97] 3 (5, some "engine failure")).2 =
      .error "engine failure" ∧
    btreeGet [97] (create_cf ⟨7, [], [107]⟩ [97] 3 (5, some "engine failure")).1.cfs =
      some 5 :=
  ⟨rfl, rfl⟩

/-- C1 (amended): for every CF name (encodable as a C string) and options,
if the engine call made by `create_cf` reports an error, then `create_cf`
returns that error to the caller, but the database's CF map DOES contain an
entry for that name mapped to the engine-returned handle: the insertion
happens before the error pointer is checked. -/
theorem create_cf_error_returns_error_and_inserts (db : DB) (name : Bytes)
    (opts : Nat) (eng : Nat × Option String) (e : String)
    (hname : ¬ 0 ∈ name) (herr : eng.2 = some e) :
    (create_cf db name opts eng).2 = .error e ∧
    btreeGet name (create_cf db name opts eng).1.cfs = some eng.1 := by
  have hc : cstring_new name = some name := by simp [cstring_new, hname]
  unfold create_cf
  rw [hc, herr]
  exact ⟨rfl, btreeGet_btreeInsert_self _ _ _⟩

/-- C1 (witness for the amended theorem). -/
theorem create_cf_error_returns_error_and_inserts_witness :
    (create_cf ⟨7, [], [107]⟩ [98] 3 (6, some "boom")).2 = .error "boom" ∧
    btreeGet [98] (create_cf ⟨7, [], [107]⟩ [98] 3 (6, some "boom")).1.cfs = some 6 :=
  create_cf_error_returns_error_and_inserts ⟨7, [], [107]⟩ [98] 3 (6, some "boom")
    "boom" (by decide) rfl

/-- C2: for every key and (non-null) read options, `get_opt` and
`get_cf_opt` check the error out-pointer before interpreting the value
pointer: when the engine signals an error the error is returned whatever
the value pointer holds; with no error, a null value pointer yields
`Ok(None)` and a non-null one yields the owned value. -/
theorem get_checks_error_before_value (db : DB) (cf : Nat) (key : Bytes)
    (readopts : ReadOptions) (eng : EngineGetResult)
    (hro : readopts.inner ≠ 0) :
    (∀ e, eng.err = some e →
      get_opt db key readopts eng = .error e ∧
      get_cf_opt db cf key readopts eng = .error e) ∧
    (eng.err = none → eng.val = none →
      get_opt db key readopts eng = .ok none ∧
      get_cf_opt db cf key readopts eng = .ok none) ∧
    (∀ v, eng.err = none → eng.val = some v →
      get_opt db key readopts eng = .ok (some v) ∧
      get_cf_opt db cf key readopts eng = .ok (some v)) := by
  refine ⟨?_, ?_, ?_⟩
  · intro e he
    constructor <;> simp [get_opt, get_cf_opt, hro, he]
  · intro he hv
    constructor <;> simp [get_opt, get_cf_opt, hro, he, hv]
  · intro v he hv
    constructor <;> simp [get_opt, get_cf_opt, hro, he, hv]

/-- C2 (witness): with both an error and a non-null value pointer present,
the error wins — the error pointer is interpreted first. -/
theorem get_checks_error_before_value_witness :
    get_opt ⟨1, [], []⟩ [107] ⟨1⟩ ⟨some [1], some "boom"⟩ = .error "boom" ∧
    get_cf_opt ⟨1, [], []⟩ 2 [107] ⟨1⟩ ⟨some [1], some "boom"⟩ = .error "boom" :=
  (get_checks_error_before_value ⟨1, [], []⟩ 2 [107] ⟨1⟩ ⟨some [1], some "boom"⟩
    (by decide)).1 "boom" rfl

/-- C4 (counterexample): on a path holding a NUL byte, `destroy` and
`repair` do not return an error value: the `unwrap` on the path conversion
panics (modelled by `none`), terminating the program — the claim fails for
these two path-taking operations. -/
theorem destroy_repair_nul_path_counterexample :
    destroy 3 [0] none = none ∧ repair 3 [0] none = none :=
  ⟨rfl, rfl⟩

/-- C4 (amended): on a path that cannot be encoded as a null-terminated
byte string, `open_cf` returns a descriptive error value to the caller,
but `destroy` and `repair` panic on the `unwrap` of the path conversion,
terminating the program instead of returning an error. -/
theorem path_encoding_open_errs_destroy_repair_panic
    (opts : Nat) (path : Bytes) (cfs : List Bytes) (cf_opts : List Nat)
    (fsErr : Option String) (engOpen : List Bytes → List Nat → EngineOpenResult)
    (eng eng' : Option String) (hnul : 0 ∈ path) :
    open_cf opts path cfs cf_opts fsErr engOpen =
      .error "Failed to convert path to CString when opening rocksdb" ∧
    destroy opts path eng = none ∧
    repair opts path eng' = none := by
  have hc : cstring_new path = none := by simp [cstring_new, hnul]
  unfold open_cf destroy repair
  rw [hc]
  exact ⟨rfl, rfl, rfl⟩

/-- C4 (witness for the amended theorem). -/
theorem path_encoding_open_errs_destroy_repair_panic_witness :
    open_cf 1 [0] [] [] none (fun _ _ => ⟨1, fun _ => 1, none⟩) =
      .error "Failed to convert path to CString when opening rocksdb" ∧
    destroy 1 [0] none = none ∧
    repair 1 [0] none = none :=
  path_encoding_open_errs_destroy_repair_panic 1 [0] [] [] none
    (fun _ _ => ⟨1, fun _ => 1, none⟩) none none (by decide)

/-- C8: `Range::new(a, b)` fails its assertion (refusing construction)
whenever `a > b` byte-lexicographically, and constructs the half-open
range whenever `a <= b`. -/
theorem range_new_refuses_or_constructs (a b : Bytes) :
    (bytesLt b a = true → Range.new a b = none) ∧
    (bytesLe a b = true → Range.new a b = some { start_key := a, end_key := b }) := by
  constructor
  · intro h
    have hle : bytesLe a b = false := by
      have heq := bytesLt_eq_not_le a b
      rw [h] at heq
      cases hb : bytesLe a b
      · rfl
      · rw [hb] at heq; simp at heq
    simp [Range.new, assertGuard, hle]
  · intro h
    simp [Range.new, assertGuard, h]

/-- C8 (witness). -/
theorem range_new_refuses_or_constructs_witness :
    Range.new [2] [1] = none ∧
    Range.new [1] [2] = some { start_key := [1], end_key := [2] } :=
  ⟨(range_new_refuses_or_constructs [2] [1]).1 (by decide),
   (range_new_refuses_or_constructs [1] [2]).2 (by decide)⟩

/-- C9: calling `key()` or `value()` on an iterator that is not Valid
fails the `assert!(self.valid())` (modelled by `none`); on a Valid
iterator the assertion passes and the borrowed key/value slices are
returned. -/
theorem iterator_key_value_assert (it : DBIterator) :
    (it.valid = false → it.key = none ∧ it.value = none) ∧
    (it.valid = true → it.key = some it.cur_key ∧ it.value = some it.cur_value) := by
  constructor
  · intro h
    constructor <;> simp [DBIterator.key, DBIterator.value, assertGuard, h]
  · intro h
    constructor <;> simp [DBIterator.key, DBIterator.value, assertGuard, h]

/-- C9 (witness). -/
theorem iterator_key_value_assert_witness :
    (DBIterator.key ⟨false, [1], [2]⟩ = none ∧
     DBIterator.value ⟨false, [1], [2]⟩ = none) ∧
    (DBIterator.key ⟨true, [1], [2]⟩ = some [1] ∧
     DBIterator.value ⟨true, [1], [2]⟩ = some [2]) :=
  ⟨(iterator_key_value_assert ⟨false, [1], [2]⟩).1 rfl,
   (iterator_key_value_assert ⟨true, [1], [2]⟩).2 rfl⟩

/-- C10: a successful `drop_cf(name)` on a CF present in the map leaves
the database state unchanged: the entry is not removed, `cf_handle(name)`
still returns the handle and `cf_names()` still lists the name. -/
theorem drop_cf_leaves_map_unchanged (db : DB) (name : Bytes)
    (eng : Option String) (h : Nat)
    (hmem : btreeGet name db.cfs = some h)
    (hok : (drop_cf db name eng).2 = .ok ()) :
    (drop_cf db name eng).1 = db ∧
    cf_handle (drop_cf db name eng).1 name = some h ∧
    cf_names (drop_cf db name eng).1 = cf_names db := by
  have hfst := drop_cf_fst db name eng
  refine ⟨hfst, ?_, by rw [hfst]⟩
  rw [hfst]
  exact hmem

/-- C10 (witness). -/
theorem drop_cf_leaves_map_unchanged_witness :
    (drop_cf ⟨1, [([97], 5)], [107]⟩ [97] none).1 = ⟨1, [([97], 5)], [107]⟩ ∧
    cf_handle (drop_cf ⟨1, [([97], 5)], [107]⟩ [97] none).1 [97] = some 5 ∧
    cf_names (drop_cf ⟨1, [([97], 5)], [107]⟩ [97] none).1 =
      cf_names ⟨1, [([97], 5)], [107]⟩ :=
  drop_cf_leaves_map_unchanged ⟨1, [([97], 5)], [107]⟩ [97] none 5 rfl rfl

/-- C3: for equal-length caller lists with `"default"` absent, `open_cf`
appends `"default"` paired with the database-level options to the arrays
passed to the engine, and every successful open yields a CF map containing
the key `"default"`. -/
theorem open_cf_appends_default (opts : Nat) (path : Bytes) (cfs : List Bytes)
    (cf_opts : List Nat) (fsErr : Option String)
    (eng : List Bytes → List Nat → EngineOpenResult) (db : DB)
    (hlen : cfs.length = cf_opts.length)
    (habs : cfs.contains DEFAULT_COLUMN_FAMILY = false)
    (hok : open_cf opts path cfs cf_opts fsErr eng = .ok db) :
    open_cfs_v cfs = cfs ++ [DEFAULT_COLUMN_FAMILY] ∧
    open_cf_opts_v opts cfs cf_opts = cf_opts ++ [opts] ∧
    (btreeGet DEFAULT_COLUMN_FAMILY db.cfs).isSome = true := by
  have habs' : DEFAULT_COLUMN_FAMILY ∉ cfs := by simpa using habs
  refine ⟨by simp [open_cfs_v, habs'], by simp [open_cf_opts_v, habs'], ?_⟩
  rw [open_cf_ok_inv opts path cfs cf_opts fsErr eng db hok]
  apply btreeGet_foldl_isSome
  apply Or.inl
  rw [List.map_fst_zip _ _ (by simp)]
  simp [open_cfs_v, habs']

/-- C3 (witness). -/
theorem open_cf_appends_default_witness :
    open_cfs_v [] = [] ++ [DEFAULT_COLUMN_FAMILY] ∧
    open_cf_opts_v 1 [] [] = [] ++ [1] ∧
    (btreeGet DEFAULT_COLUMN_FAMILY
      (DB.mk 1 [(DEFAULT_COLUMN_FAMILY, 1)] [107]).cfs).isSome = true :=
  open_cf_appends_default 1 [107] [] [] none (fun _ _ => ⟨1, fun _ => 1, none⟩)
    (DB.mk 1 [(DEFAULT_COLUMN_FAMILY, 1)] [107]) rfl rfl rfl

/-- C5: dropping a `DB` emits a CF-handle-destroy engine call for every
entry of the CF map and one close call on the engine handle, and in the
emitted sequence every close event occurs strictly after every
CF-handle-destroy event. -/
theorem dropDB_releases_cfs_before_close (db : DB) :
    (∀ p ∈ db.cfs, EngineEvent.cf_destroy p.2 ∈ dropDB db) ∧
    EngineEvent.close db.inner ∈ dropDB db ∧
    (∀ i j, ∀ hi : i < (dropDB db).length, ∀ hj : j < (dropDB db).length,
      ((dropDB db).get ⟨i, hi⟩).isClose = true →
      ((dropDB db).get ⟨j, hj⟩).isCfDestroy = true → j < i) := by
  refine ⟨?_, ?_, ?_⟩
  · intro p hp
    exact List.mem_append_left _ (List.mem_map_of_mem _ hp)
  · exact List.mem_append_right _ (List.mem_singleton_self _)
  · intro i j hi hj hci hdj
    rw [List.get_eq_getElem] at hci hdj
    have hmaplen :
        (db.cfs.map (fun kv => EngineEvent.cf_destroy kv.2)).length = db.cfs.length := by
      simp
    have hlen : (dropDB db).length = db.cfs.length + 1 := by
      simp [dropDB]
    have hjlt : j < db.cfs.length := by
      rcases Nat.lt_or_ge j db.cfs.length with hcase | hcase
      · exact hcase
      · exfalso
        have hj' : j = db.cfs.length := by omega
        have hc : (dropDB db)[j] = EngineEvent.close db.inner := by
          unfold dropDB
          exact List.getElem_concat_length _ _ _ (by omega) (by simpa [dropDB] using hj)
        rw [hc] at hdj
        simp [EngineEvent.isCfDestroy] at hdj
    have hige : db.cfs.length ≤ i := by
      rcases Nat.lt_or_ge i db.cfs.length with hcase | hcase
      · exfalso
        have hi' : i < (db.cfs.map (fun kv => EngineEvent.cf_destroy kv.2)).length := by
          omega
        have hc : (dropDB db)[i] =
            EngineEvent.cf_destroy (db.cfs.get ⟨i, hcase⟩).2 := by
          unfold dropDB
          rw [List.getElem_append_left hi']
          simp
        rw [hc] at hci
        simp [EngineEvent.isClose] at hci
      · exact hcase
    omega

/-- C5 (witness). -/
theorem dropDB_releases_cfs_before_close_witness : (0 : Nat) < 1 :=
  (dropDB_releases_cfs_before_close ⟨3, [([97], 5)], [107]⟩).2.2 1 0
    (by decide) (by decide) (by decide) (by decide)

/-- C6: for every property name and optional CF, `get_property_int`
returns `Some n` exactly when `get_property_value` returns a present
string parsing as a decimal unsigned 64-bit integer `n`, and returns
`None` exactly when the property is absent or its string form does not
parse (the outer `some` records that the name conversion did not panic). -/
theorem property_int_agrees_with_value_parse (db : DB) (cf : Option Nat)
    (name : String) (eng : Option String) :
    (∀ n, get_property_int_cf_opt db cf name eng = some (some n) ↔
      ∃ s, get_property_value_cf_opt db cf name eng = some (some s) ∧
        parse_u64 s = some n) ∧
    (get_property_int_cf_opt db cf name eng = some none ↔
      get_property_value_cf_opt db cf name eng = some none ∨
      ∃ s, get_property_value_cf_opt db cf name eng = some (some s) ∧
        parse_u64 s = none) := by
  unfold get_property_int_cf_opt get_property_value_cf_opt
  cases hc : cstring_new_str name
  · simp
  · cases eng with
    | none => simp
    | some s =>
      cases hp : parse_u64 s <;> simp [hp]

/-- C6 (witness). -/
theorem property_int_agrees_with_value_parse_witness :
    get_property_int_cf_opt ⟨1, [], []⟩ none "p" (some "123") = some (some 123) :=
  ((property_int_agrees_with_value_parse ⟨1, [], []⟩ none "p" (some "123")).1 123).2
    ⟨"123", rfl, by decide⟩

/-- C7: in every reachable database state, `cf_names` returns the names of
all entries of the CF map, in strictly ascending byte-lexicographic
order. -/
theorem cf_names_sorted_ascending (db : DB) (h : Reachable db) :
    (∀ p ∈ db.cfs, p.1 ∈ cf_names db) ∧
    List.Pairwise (fun a b : Bytes => bytesLt a b = true) (cf_names db) := by
  refine ⟨fun p hp => List.mem_map_of_mem _ hp, ?_⟩
  have hs := reachable_sortedKeys db h
  unfold cf_names
  exact List.pairwise_map.mpr hs

/-- C7 (witness). -/
theorem cf_names_sorted_ascending_witness :
    List.Pairwise (fun a b : Bytes => bytesLt a b = true)
      (cf_names ⟨1, [(DEFAULT_COLUMN_FAMILY, 1)], [107]⟩) :=
  (cf_names_sorted_ascending ⟨1, [(DEFAULT_COLUMN_FAMILY, 1)], [107]⟩
    (Reachable.open_ok 1 [107] [] [] none (fun _ _ => ⟨1, fun _ => 1, none⟩)
      ⟨1, [(DEFAULT_COLUMN_FAMILY, 1)], [107]⟩ rfl)).2

end RocksDB
